import Mathlib

/-!
Verification of the attendance-bot billing schedule engine and attendance
reconciliation engine.

The embedding models the two data tables (`users`, `payment_schedule`) as
lists of records, a calendar date as a (year, month, day) triple, and each
database operation of `database.py` as a pure function on the table state.
`CURRENT_DATE()` / `datetime.now()` is passed explicitly as a `today`
parameter.  Money amounts are modelled as rationals.  Payment/user statuses
are modelled as the exact strings the program writes ("Due", "paid",
"inactive").
-/

/-- A calendar date, as stored in the DATE columns. -/
structure Date where
  year : Nat
  month : Nat
  day : Nat
deriving DecidableEq

/-- Lexicographic (chronological) order on dates, matching SQL DATE order. -/
def dateLe (a b : Date) : Prop :=
  a.year < b.year ∨
    (a.year = b.year ∧
      (a.month < b.month ∨ (a.month = b.month ∧ a.day ≤ b.day)))

/-- Strict chronological order on dates. -/
def dateLt (a b : Date) : Prop :=
  a.year < b.year ∨
    (a.year = b.year ∧
      (a.month < b.month ∨ (a.month = b.month ∧ a.day < b.day)))

instance (a b : Date) : Decidable (dateLe a b) := by
  unfold dateLe; exact inferInstance

instance (a b : Date) : Decidable (dateLt a b) := by
  unfold dateLt; exact inferInstance

/-- Gregorian leap-year rule. -/
def isLeap (y : Nat) : Bool :=
  (y % 4 == 0 && !(y % 100 == 0)) || y % 400 == 0

/-- Number of days in a given month of a given year. -/
def daysInMonth (y m : Nat) : Nat :=
  if m = 2 then (if isLeap y then 29 else 28)
  else if m = 4 ∨ m = 6 ∨ m = 9 ∨ m = 11 then 30
  else 31

/-- The previous calendar day. -/
def subDay (d : Date) : Date :=
  if 1 < d.day then ⟨d.year, d.month, d.day - 1⟩
  else if 1 < d.month then ⟨d.year, d.month - 1, daysInMonth d.year (d.month - 1)⟩
  else ⟨d.year - 1, 12, 31⟩

/-- `d` minus `n` calendar days (`DATE_SUB(d, INTERVAL n DAY)`,
`d - relativedelta(days=n)`, `d - timedelta(days=n)`). -/
def subDays (d : Date) : Nat → Date
  | 0 => d
  | n + 1 => subDays (subDay d) n

/-- The next calendar day. -/
def addDay (d : Date) : Date :=
  if d.day < daysInMonth d.year d.month then ⟨d.year, d.month, d.day + 1⟩
  else if d.month < 12 then ⟨d.year, d.month + 1, 1⟩
  else ⟨d.year + 1, 1, 1⟩

/-- `d` plus `n` calendar days. -/
def addDays (d : Date) : Nat → Date
  | 0 => d
  | n + 1 => addDays (addDay d) n

/-- `d + relativedelta(months=i)`: advance the month, carrying into the
year, and clamp the day-of-month to the target month's length (dateutil's
behaviour). -/
def addMonths (d : Date) (i : Nat) : Date :=
  let m0 := d.month - 1 + i
  let y := d.year + m0 / 12
  let m := m0 % 12 + 1
  ⟨y, m, min d.day (daysInMonth y m)⟩

/-- English month name, as produced by `strftime('%B')` and SQL
`MONTHNAME`. -/
def monthName : Nat → String
  | 1 => "January"
  | 2 => "February"
  | 3 => "March"
  | 4 => "April"
  | 5 => "May"
  | 6 => "June"
  | 7 => "July"
  | 8 => "August"
  | 9 => "September"
  | 10 => "October"
  | 11 => "November"
  | 12 => "December"
  | _ => ""

/-- A row of the `payment_schedule` table.  The source addresses the
month-name column as `month_name` in most statements and as `month` in
`update_payment`; both refer to this field in the model. -/
structure PaymentRecord where
  user_id : Nat
  amount : ℚ
  start_date : Date
  end_date : Date
  month_name : String
  payment_status : String
  follow_up : Option Date
  batch_id : Nat
deriving DecidableEq

/-- A row of the `users` table. -/
structure User where
  id : Nat
  name : String
  mobile : String
  batch_id : Nat
  status : String
  last_date_attended : Option Date
deriving DecidableEq

/-- The persistent state: both tables. -/
structure DB where
  users : List User
  schedule : List PaymentRecord
deriving DecidableEq

/-- The row filter `user_id = %s AND month_name = %s AND
YEAR(start_date) = YEAR(CURRENT_DATE())` shared by the status, follow-up,
pack and deactivation statements. -/
def matchKeyb (uid : Nat) (mn : String) (y : Nat) (r : PaymentRecord) : Bool :=
  r.user_id == uid && r.month_name == mn && r.start_date.year == y

/-- Cooldown test from `fetch_unpaid_users`:
`follow_up IS NULL OR follow_up < DATE_SUB(CURRENT_DATE(), INTERVAL 4 DAY)`. -/
def followUpOk (today : Date) (fu : Option Date) : Bool :=
  match fu with
  | none => true
  | some d => decide (dateLt d (subDays today 4))

/-- A `payment_schedule` row eligible for the due-users join:
status `'Due'` and outside the follow-up cooldown. -/
def eligibleRec (today : Date) (r : PaymentRecord) : Bool :=
  r.payment_status == "Due" && followUpOk today r.follow_up

/-- Chronological minimum of a list of dates (`MIN(start_date)`). -/
def dateMin : List Date → Option Date
  | [] => none
  | d :: ds =>
    match dateMin ds with
    | none => some d
    | some m => some (if dateLe d m then d else m)

/-- One output row of `fetch_unpaid_users`. -/
structure DueRow where
  id : Nat
  name : String
  mobile : String
  batch_id : Nat
  last_date_attended : Option Date
  start_date : Date
  due_month : String
deriving DecidableEq

/-- The `GROUP BY` step of `fetch_unpaid_users` for one user: the minimum
start date of the user's eligible Due rows, if any. -/
def userMinDue (db : DB) (today : Date) (uid : Nat) : Option Date :=
  dateMin ((db.schedule.filter
    (fun r => r.user_id == uid && eligibleRec today r)).map
    (fun r => r.start_date))

/-- The row `fetch_unpaid_users` builds for one grouped user. -/
def mkDueRow (u : User) (m : Date) : DueRow :=
  ⟨u.id, u.name, u.mobile, u.batch_id, u.last_date_attended, m,
    monthName m.month⟩

/-- Result ordering of `fetch_unpaid_users`: ascending oldest due date. -/
def rowLe (a b : DueRow) : Prop := dateLe a.start_date b.start_date

instance : DecidableRel rowLe := fun a b => by
  unfold rowLe; exact inferInstance

instance : IsTotal DueRow rowLe :=
  ⟨fun a b => by simp only [rowLe, dateLe]; omega⟩

instance : IsTrans DueRow rowLe :=
  ⟨fun a b c hab hbc => by
    simp only [rowLe, dateLe] at hab hbc ⊢; omega⟩

/-- The grouped row for one user of `fetch_unpaid_users`: present exactly
when the user has at least one eligible Due row. -/
def fetchRowFn (db : DB) (today : Date) (u : User) : Option DueRow :=
  match userMinDue db today u.id with
  | none => none
  | some m => some (mkDueRow u m)

/-- `fetch_unpaid_users`: join users with their eligible Due rows, group by
user keeping the oldest eligible due date, order ascending by that date,
and apply `LIMIT`. -/
def fetchUnpaidUsers (db : DB) (today : Date) (limit : Nat) : List DueRow :=
  ((db.users.filterMap (fetchRowFn db today)).insertionSort rowLe).take limit

/-- `update_payment_status`: for `'ignore'` zero the amount and set status
`'paid'`; otherwise write the given status.  Scope: the user's row(s) for
that month name in the current year.  Returns the commit signal. -/
def updatePaymentStatus (uid : Nat) (mn : String) (status : String)
    (today : Date) (db : DB) : DB × Bool :=
  if status = "ignore" then
    ({ db with schedule := db.schedule.map (fun r =>
        if matchKeyb uid mn today.year r then
          { r with payment_status := "paid", amount := 0 }
        else r) }, true)
  else
    ({ db with schedule := db.schedule.map (fun r =>
        if matchKeyb uid mn today.year r then
          { r with payment_status := status }
        else r) }, true)

/-- `update_followup_date`: stamp today into `follow_up` for the user's
row(s) for that month name in the current year. -/
def updateFollowupDate (uid : Nat) (mn : String) (today : Date) (db : DB) :
    DB × Bool :=
  ({ db with schedule := db.schedule.map (fun r =>
      if matchKeyb uid mn today.year r then { r with follow_up := some today }
      else r) }, true)

/-- End date used by `update_pack_payment`:
`month_date + relativedelta(months=1) - relativedelta(days=1)`. -/
def packEnd (md : Date) : Date := subDays (addMonths md 1) 1

/-- The record `update_pack_payment` inserts for a month with no existing
current-year row. -/
def newPaidRecord (uid : Nat) (amt : ℚ) (bid : Nat) (md : Date) :
    PaymentRecord :=
  ⟨uid, amt, md, packEnd md, monthName md.month, "paid", none, bid⟩

/-- One iteration of the `update_pack_payment` month loop: if any row exists
for (user, month name, current year) update all such rows to paid with the
new amount/end date/batch, else insert a fresh paid row. -/
def packStep (uid : Nat) (amt : ℚ) (bid : Nat) (curYear : Nat) (md : Date)
    (db : DB) : DB :=
  let mn := monthName md.month
  if db.schedule.any (fun r => matchKeyb uid mn curYear r) then
    { db with schedule := db.schedule.map (fun r =>
        if matchKeyb uid mn curYear r then
          { r with amount := amt, end_date := packEnd md,
                   payment_status := "paid", batch_id := bid }
        else r) }
  else
    { db with schedule := db.schedule ++ [newPaidRecord uid amt bid md] }

/-- The month loop of `update_pack_payment`. -/
def packLoop (uid : Nat) (amt : ℚ) (bid : Nat) (curYear : Nat)
    (ds : List Date) (db : DB) : DB :=
  ds.foldl (fun acc md => packStep uid amt bid curYear md acc) db

/-- `update_pack_payment`: look up the anchor start date from the user's
current-year row for the hinted month; if absent return False; otherwise
run the month loop over `pack_months` consecutive months from the anchor
and return True. -/
def updatePackPayment (uid : Nat) (startMonth : String) (packMonths : Nat)
    (amt : ℚ) (bid : Nat) (today : Date) (db : DB) : DB × Bool :=
  match db.schedule.find? (fun r => matchKeyb uid startMonth today.year r) with
  | none => (db, false)
  | some r =>
    (packLoop uid amt bid today.year
      ((List.range packMonths).map (fun i => addMonths r.start_date i)) db,
     true)

/-- `mark_user_inactive`: zero and close (status `'paid'`) the user's
current-year row(s) for the given month name, set the user's status to
`'inactive'`, and return the commit signal.  No row is deleted. -/
def markUserInactive (uid : Nat) (mn : String) (today : Date) (db : DB) :
    DB × Bool :=
  ({ users := db.users.map (fun u =>
       if u.id == uid then { u with status := "inactive" } else u),
     schedule := db.schedule.map (fun r =>
       if matchKeyb uid mn today.year r then
         { r with amount := 0, payment_status := "paid" }
       else r) }, true)

/-- Row filter of `update_payment`'s existence check and UPDATE:
`user_id = %s AND month = %s` - the month name alone, with no year. -/
def upMatch (uid : Nat) (mn : String) (r : PaymentRecord) : Bool :=
  r.user_id == uid && r.month_name == mn

/-- End date used by `update_payment`:
`month_start + relativedelta(day=31) - relativedelta(days=1)`, i.e. the
last day of the month minus one day. -/
def upEnd (md : Date) : Date :=
  subDays ⟨md.year, md.month, daysInMonth md.year md.month⟩ 1

/-- The record `update_payment` inserts for a month with no existing row. -/
def newDueRecord (uid : Nat) (amt : ℚ) (bid : Nat) (md : Date) :
    PaymentRecord :=
  ⟨uid, amt, md, upEnd md, monthName md.month, "Due", none, bid⟩

/-- One iteration of the `update_payment` month loop: if any row exists for
(user, month name) - any year - overwrite all such rows with the new
amount, dates, batch and status `'Due'`; else insert a fresh Due row. -/
def upStep (uid : Nat) (amt : ℚ) (bid : Nat) (md : Date) (db : DB) : DB :=
  let mn := monthName md.month
  if db.schedule.any (fun r => upMatch uid mn r) then
    { db with schedule := db.schedule.map (fun r =>
        if upMatch uid mn r then
          { r with amount := amt, start_date := md, end_date := upEnd md,
                   batch_id := bid, payment_status := "Due" }
        else r) }
  else
    { db with schedule := db.schedule ++ [newDueRecord uid amt bid md] }

/-- The month loop of `update_payment`. -/
def upLoop (uid : Nat) (amt : ℚ) (bid : Nat) (ds : List Date) (db : DB) :
    DB :=
  ds.foldl (fun acc md => upStep uid amt bid md acc) db

/-- The N month-start dates `update_payment` iterates over:
`datetime.now().date() + relativedelta(months=i)` for `i < months`. -/
def genDates (today : Date) (months : Nat) : List Date :=
  (List.range months).map (fun i => addMonths today i)

/-- `update_payment`: split the amount per month, upsert each of the N
months keyed on (user, month name).  The Python function has no `return`
statement, so its value is `None` on every modelled path - represented by
the second component `none`. -/
def updatePayment (uid : Nat) (amount : ℚ) (months : Nat) (bid : Nat)
    (today : Date) (db : DB) : DB × Option Bool :=
  (upLoop uid (amount / (months : ℚ)) bid (genDates today months) db, none)

/-- A time of day attached to a calendar date (seconds are validated at
parse time but do not affect date attribution). -/
structure DateTime where
  date : Date
  hour : Nat
  minute : Nat
deriving DecidableEq

/-- Add `k` minutes to a timestamp, carrying overflow into the date. -/
def addMinutes (dt : DateTime) (k : Nat) : DateTime :=
  let tot := dt.hour * 60 + dt.minute + k
  ⟨addDays dt.date (tot / 1440), tot % 1440 / 60, tot % 60⟩

/-- Split a character list on a separator (`str.split(sep)` for a
one-character separator). -/
def splitOnChar (c : Char) : List Char → List (List Char)
  | [] => [[]]
  | x :: xs =>
    let r := splitOnChar c xs
    if x = c then [] :: r
    else
      match r with
      | [] => [[x]]
      | y :: ys => (x :: y) :: ys

/-- Decimal digit test. -/
def isDigitCh (c : Char) : Bool := decide (48 ≤ c.toNat ∧ c.toNat ≤ 57)

/-- Parse a non-empty all-digit character list as a natural number. -/
def digitsToNat (l : List Char) : Option Nat :=
  if l ≠ [] ∧ l.all isDigitCh then
    some (l.foldl (fun acc c => acc * 10 + (c.toNat - 48)) 0)
  else none

/-- `datetime.strptime(s, '%Y-%m-%d')`: three dash-separated numeric
fields forming a valid calendar date. -/
def parseDate (s : String) : Option Date :=
  match (splitOnChar (Char.ofNat 45) s.toList).map digitsToNat with
  | [some y, some m, some d] =>
    if 1 ≤ m ∧ m ≤ 12 ∧ 1 ≤ d ∧ d ≤ daysInMonth y m then some ⟨y, m, d⟩
    else none
  | _ => none

/-- `datetime.strptime(s, '%Y-%m-%dT%H:%M:%SZ')`, after the source first
strips a fractional-seconds part when the string contains both a dot and a
'Z' (`start_time_str.split('.')[0] + 'Z'`). -/
def parseZoomTime (s : String) : Option DateTime :=
  let l := s.toList
  let l :=
    if l.contains (Char.ofNat 46) && l.contains (Char.ofNat 90) then
      ((splitOnChar (Char.ofNat 46) l).headD l) ++ [Char.ofNat 90]
    else l
  match splitOnChar (Char.ofNat 84) l with
  | [ds, ts] =>
    match parseDate (String.mk ds) with
    | none => none
    | some d =>
      if ts.getLast? = some (Char.ofNat 90) then
        match (splitOnChar (Char.ofNat 58) ts.dropLast).map digitsToNat with
        | [some h, some mi, some sec] =>
          if h < 24 ∧ mi < 60 ∧ sec < 60 then some ⟨d, h, mi⟩ else none
        | _ => none
      else none
  | _ => none

/-- The date filter of the report's meeting loop: parse the UTC start
timestamp, convert to IST by adding 5 hours 30 minutes, and keep the
instance only when the IST calendar date equals the target date.  A parse
failure discards the instance (the source's `except: continue`). -/
def dateMatches (target : Date) (startTime : String) : Bool :=
  match parseZoomTime startTime with
  | none => false
  | some dt => decide ((addMinutes dt 330).date = target)

/-- The static batch configuration of `zoom_service.py`. -/
def BATCH_IDS : List (String × String) :=
  [("Batch 1", "83527645001"), ("Batch 2", "88002278840"),
   ("Batch 3", "81387781923"), ("Batch 4", "88554007453")]

/-- Keep only the digits of an identifier string. -/
def normalizeDigits (s : String) : String :=
  String.mk (s.toList.filter isDigitCh)

/-- Suffix test on character lists (`str.endswith`). -/
def endsWithL (l suffix : List Char) : Bool :=
  decide (suffix.reverse <+: l.reverse)

/-- Match a meeting's platform identifier against the configured batches:
normalized equality or normalized suffix match. -/
def matchBatch (meetingId : String) : Option String :=
  (BATCH_IDS.find? (fun p =>
    let nb := (normalizeDigits p.2).toList
    let nm := (normalizeDigits meetingId).toList
    nm == nb || endsWithL nm nb)).map (fun p => p.1)

/-- One meeting instance returned by the platform listing. -/
structure Meeting where
  id : String
  uuid : String
  start_time : String
deriving DecidableEq

/-- The external world the report call reads: the OAuth token the auth
round-trip yields, the host lookup result, the listed meetings, and the
participant names per meeting instance UUID. -/
structure ZoomEnv where
  token : Option String
  hostUserId : Option String
  meetings : List Meeting
  participants : String → List String

/-- Configuration read from the environment. -/
structure ReportConfig where
  hostEmail : Option String

/-- Network calls the report performs, in order. -/
inductive NetCall
  | auth
  | userLookup
  | listMeetings
  | fetchParticipants (uuid : String)
deriving DecidableEq

/-- The report's value: either one of the user-facing message strings or a
structured report (batch label, meeting, deduplicated participant names);
the final HTML rendering of the success case is presentation only and is
not modelled further. -/
inductive ReportOutcome
  | message (s : String)
  | report (batches : List (String × Meeting × List String))
deriving DecidableEq

/-- `f"Invalid date format: {target_date_str}. Please use YYYY-MM-DD."` -/
def invalidDateMsg (s : String) : String :=
  "Invalid date format: " ++ s ++ ". Please use YYYY-MM-DD."

/-- `f"Date {target_date_str} is in the future. ..."` -/
def futureDateMsg (s : String) : String :=
  "Date " ++ s ++ " is in the future. Please provide a past date or today" ++
    String.singleton (Char.ofNat 39) ++ "s date."

/-- Two-digit zero padding for date formatting. -/
def pad2 (n : Nat) : String :=
  if n < 10 then "0" ++ toString n else toString n

/-- `strftime('%Y-%m-%d')`. -/
def formatDate (d : Date) : String :=
  toString d.year ++ "-" ++ pad2 d.month ++ "-" ++ pad2 d.day

/-- The meeting-matching stage of the report: keep meetings whose
identifier matches a configured batch and whose IST start date equals the
target date, labelled with the batch name. -/
def matchedMeetings (ms : List Meeting) (target : Date) :
    List (String × Meeting) :=
  ms.filterMap (fun m =>
    match matchBatch m.id with
    | none => none
    | some b => if dateMatches target m.start_time then some (b, m) else none)

/-- Participant post-processing per matched instance: distinct display
names with the host name removed (output sorting is presentation only). -/
def cleanParticipants (names : List String) : List String :=
  names.dedup.filter (fun n => !(n == "Apoorva Yoga"))

/-- `get_attendance_report`: authenticate (always the first call), default
and parse the target date, reject future dates, look up the host, list the
meetings, match and date-filter them, and fetch participants per matched
instance.  Returns the network-call trace alongside the outcome. -/
def getAttendanceReport (env : ZoomEnv) (cfg : ReportConfig) (today : Date)
    (targetArg : Option String) : List NetCall × ReportOutcome :=
  match env.token with
  | none => ([NetCall.auth], ReportOutcome.message "Failed to authenticate with Zoom.")
  | some _ =>
    let tds := match targetArg with
      | none => formatDate today
      | some s => s
    match parseDate tds with
    | none => ([NetCall.auth], ReportOutcome.message (invalidDateMsg tds))
    | some target =>
      if dateLt today target then
        ([NetCall.auth], ReportOutcome.message (futureDateMsg tds))
      else
        match cfg.hostEmail with
        | none =>
          ([NetCall.auth], ReportOutcome.message
            "ZOOM_HOST_EMAIL not configured in environment variables.")
        | some _ =>
          let trace := [NetCall.auth, NetCall.userLookup, NetCall.listMeetings]
          match env.meetings with
          | [] =>
            (trace, ReportOutcome.message
              ("No meetings found for " ++ tds ++ "."))
          | _ =>
            let matched := matchedMeetings env.meetings target
            let trace := trace ++
              matched.map (fun bm => NetCall.fetchParticipants bm.2.uuid)
            if matched.isEmpty then
              (trace, ReportOutcome.message
                ("No Batch meetings found for " ++ tds ++ "."))
            else
              (trace, ReportOutcome.report (matched.map (fun bm =>
                (bm.1, bm.2, cleanParticipants (env.participants bm.2.uuid)))))

/-- Outcome of a Python-level call at the chat layer. -/
inductive CallOutcome
  | ok (success : Bool)
  | typeError
deriving DecidableEq

/-- Positional call to `update_pack_payment`, whose five parameters all
lack defaults.  The chat layer supplies no value for `batch_id`
(`batch?`); a call with the argument missing raises TypeError before the
function body runs, leaving the database untouched. -/
def callUpdatePackPayment (uid : Nat) (startMonth : String)
    (packMonths : Nat) (amt : ℚ) (batch? : Option Nat) (today : Date)
    (db : DB) : DB × CallOutcome :=
  match batch? with
  | some bid =>
    let r := updatePackPayment uid startMonth packMonths amt bid today db
    (r.1, CallOutcome.ok r.2)
  | none => (db, CallOutcome.typeError)

/-- `button_callback` of `bot.py`: dispatch on the action token.  The
pack3/pack6 branches pass only (user_id, month, pack length, rate) -
four arguments, with `batch_id` unsupplied. -/
def buttonCallback (action : String) (uid : Nat) (month : String)
    (today : Date) (db : DB) : DB × CallOutcome :=
  if action = "paid" then
    let r := updatePaymentStatus uid month "paid" today db
    (r.1, CallOutcome.ok r.2)
  else if action = "ignore" then
    let r := updatePaymentStatus uid month "ignore" today db
    (r.1, CallOutcome.ok r.2)
  else if action = "followup" then
    let r := updateFollowupDate uid month today db
    (r.1, CallOutcome.ok r.2)
  else if action = "pack3" then
    callUpdatePackPayment uid month 3 1333 none today db
  else if action = "pack6" then
    callUpdatePackPayment uid month 6 1166 none today db
  else if action = "inactive" then
    let r := markUserInactive uid month today db
    (r.1, CallOutcome.ok r.2)
  else (db, CallOutcome.typeError)

/-- Python truthiness of the value `update_payment` returns. -/
def truthy : Option Bool → Bool
  | none => false
  | some b => b

/-- The final step of the `/update_payment` conversation in `bot.py`:
run `update_payment` and report success or failure from its return
value's truthiness. -/
def batchIdHandler (uid : Nat) (amount : ℚ) (months : Nat) (bid : Nat)
    (today : Date) (db : DB) : DB × String :=
  let r := updatePayment uid amount months bid today db
  (r.1,
   if truthy r.2 then "Payment information updated successfully."
   else "Failed to update payment information.")

/-! Concrete table states used to instantiate the theorems below. -/

/-- An already-paid October 2025 row. -/
def paidOctRec : PaymentRecord :=
  ⟨1, 500, ⟨2025, 10, 1⟩, ⟨2025, 10, 30⟩, "October", "paid", none, 1⟩

/-- State for the pack-payment overwrite scenario: the user's only row is
already paid. -/
def dbPackPaid : DB := ⟨[], [paidOctRec]⟩

/-- A Due October 2025 row. -/
def dueOctRec : PaymentRecord :=
  ⟨1, 1500, ⟨2025, 10, 1⟩, ⟨2025, 10, 30⟩, "October", "Due", none, 1⟩

/-- State for the pack-payment witness: one Due anchor row. -/
def dbPackDue : DB := ⟨[], [dueOctRec]⟩

/-- A Due November 2025 row, starting after October ends. -/
def dueNovRec : PaymentRecord :=
  ⟨1, 1500, ⟨2025, 11, 1⟩, ⟨2025, 11, 29⟩, "November", "Due", none, 1⟩

/-- State for the deactivation scenario: a current-month Due row and a
future-month Due row for the same user. -/
def dbInactive : DB := ⟨[⟨1, "A", "91", 1, "active", none⟩],
  [dueOctRec, dueNovRec]⟩

/-- An October row from the previous year, already paid. -/
def paidOct2024Rec : PaymentRecord :=
  ⟨1, 500, ⟨2024, 10, 1⟩, ⟨2024, 10, 30⟩, "October", "paid", none, 1⟩

/-- State for the schedule-generation year-collision scenario. -/
def dbOldYear : DB := ⟨[], [paidOct2024Rec]⟩

/-- A second copy of the year-collision state, for the slot-key claim. -/
def dbOldYearSlot : DB := ⟨[], [paidOct2024Rec]⟩

/-- An environment whose auth round-trip succeeds and that lists no
meetings. -/
def envAuthOk : ZoomEnv := ⟨some "tok", some "host-id", [], fun _ => []⟩

/-- State for the due-users witness: one user with one eligible Due row. -/
def dbFetch : DB := ⟨[⟨1, "A", "91", 1, "active", none⟩],
  [⟨1, 1500, ⟨2025, 9, 1⟩, ⟨2025, 9, 29⟩, "September", "Due", none, 1⟩]⟩

/-- State for the deactivation frame witness. -/
def dbFrame : DB := ⟨[⟨1, "A", "91", 1, "active", none⟩],
  [dueOctRec, dueNovRec]⟩

/-! Order and minimum helper lemmas. -/

theorem dateLe_refl (a : Date) : dateLe a a := by
  unfold dateLe; omega

theorem dateLe_trans {a b c : Date} (hab : dateLe a b) (hbc : dateLe b c) :
    dateLe a c := by
  unfold dateLe at hab hbc ⊢; omega

theorem dateLe_total (a b : Date) : dateLe a b ∨ dateLe b a := by
  unfold dateLe; omega

theorem dateMin_eq_none {l : List Date} : dateMin l = none ↔ l = [] := by
  cases l with
  | nil => simp [dateMin]
  | cons d ds =>
    simp only [dateMin]
    cases h : dateMin ds <;> simp

theorem dateMin_mem : ∀ {l : List Date} {m : Date},
    dateMin l = some m → m ∈ l := by
  intro l
  induction l with
  | nil => intro m h; simp [dateMin] at h
  | cons d ds ih =>
    intro m h
    simp only [dateMin] at h
    cases hds : dateMin ds with
    | none =>
      rw [hds] at h
      simp only [Option.some.injEq] at h
      subst h
      exact List.mem_cons_self d ds
    | some m1 =>
      rw [hds] at h
      simp only [Option.some.injEq] at h
      by_cases hle : dateLe d m1
      · rw [if_pos hle] at h
        subst h
        exact List.mem_cons_self d ds
      · rw [if_neg hle] at h
        subst h
        exact List.mem_cons_of_mem d (ih hds)

theorem dateMin_le : ∀ {l : List Date} {m : Date},
    dateMin l = some m → ∀ d ∈ l, dateLe m d := by
  intro l
  induction l with
  | nil => intro m h; simp [dateMin] at h
  | cons d ds ih =>
    intro m h x hx
    simp only [dateMin] at h
    cases hds : dateMin ds with
    | none =>
      rw [hds] at h
      simp only [Option.some.injEq] at h
      subst h
      have hnil : ds = [] := dateMin_eq_none.mp hds
      subst hnil
      rcases List.mem_cons.mp hx with hxd | hxds
      · rw [hxd]; exact dateLe_refl d
      · simp at hxds
    | some m1 =>
      rw [hds] at h
      simp only [Option.some.injEq] at h
      by_cases hle : dateLe d m1
      · rw [if_pos hle] at h
        subst h
        rcases List.mem_cons.mp hx with hxd | hxds
        · rw [hxd]; exact dateLe_refl d
        · exact dateLe_trans hle (ih hds x hxds)
      · rw [if_neg hle] at h
        subst h
        rcases List.mem_cons.mp hx with hxd | hxds
        · rcases dateLe_total d m1 with ht | ht
          · exact absurd ht hle
          · rw [hxd]; exact ht
        · exact ih hds x hxds

/-! Month-name distinctness for runs of at most 12 consecutive months. -/

theorem monthName_inj_bounded :
    ∀ m1, m1 < 12 → ∀ m2, m2 < 12 →
      monthName (m1 + 1) = monthName (m2 + 1) → m1 = m2 := by
  decide

theorem addMonths_month (d : Date) (i : Nat) :
    (addMonths d i).month = (d.month - 1 + i) % 12 + 1 := rfl

theorem genDates_names_nodup (d : Date) (n : Nat) (hn : n ≤ 12) :
    ((genDates d n).map (fun md => monthName md.month)).Nodup := by
  have h1 : (genDates d n).map (fun md => monthName md.month) =
      (List.range n).map (fun i => monthName ((d.month - 1 + i) % 12 + 1)) := by
    simp only [genDates, List.map_map]
    rfl
  rw [h1]
  apply List.Nodup.map_on _ (List.nodup_range n)
  intro i hi j hj hij
  have hi12 : i < 12 := lt_of_lt_of_le (List.mem_range.mp hi) hn
  have hj12 : j < 12 := lt_of_lt_of_le (List.mem_range.mp hj) hn
  have hmod : (d.month - 1 + i) % 12 = (d.month - 1 + j) % 12 :=
    monthName_inj_bounded _ (Nat.mod_lt _ (by omega)) _
      (Nat.mod_lt _ (by omega)) hij
  have hcan : i % 12 = j % 12 := Nat.ModEq.add_left_cancel' (d.month - 1) hmod
  rw [Nat.mod_eq_of_lt hi12, Nat.mod_eq_of_lt hj12] at hcan
  exact hcan

/-! Pack-payment month-loop lemmas. -/

theorem matchKeyb_iff (uid : Nat) (mn : String) (y : Nat) (r : PaymentRecord) :
    matchKeyb uid mn y r = true ↔
      r.user_id = uid ∧ r.month_name = mn ∧ r.start_date.year = y := by
  simp [matchKeyb, and_assoc]

theorem packStep_frame {uid : Nat} {amt : ℚ} {bid y : Nat} {md : Date}
    {db : DB} {r : PaymentRecord} (hr : r ∈ db.schedule)
    (hname : r.month_name ≠ monthName md.month) :
    r ∈ (packStep uid amt bid y md db).schedule := by
  unfold packStep
  by_cases hany :
      db.schedule.any (fun x => matchKeyb uid (monthName md.month) y x) = true
  · rw [if_pos hany]
    refine List.mem_map.mpr ⟨r, hr, ?_⟩
    rw [if_neg]
    intro hmk
    exact hname ((matchKeyb_iff _ _ _ _).mp hmk).2.1
  · rw [if_neg hany]
    exact List.mem_append_left _ hr

theorem packStep_origin {uid : Nat} {amt : ℚ} {bid y : Nat} {md : Date}
    {db : DB} {r : PaymentRecord}
    (hr : r ∈ (packStep uid amt bid y md db).schedule) :
    r ∈ db.schedule ∨ r.month_name = monthName md.month := by
  unfold packStep at hr
  by_cases hany :
      db.schedule.any (fun x => matchKeyb uid (monthName md.month) y x) = true
  · rw [if_pos hany] at hr
    obtain ⟨r1, hr1, hfr⟩ := List.mem_map.mp hr
    by_cases hmk : matchKeyb uid (monthName md.month) y r1 = true
    · rw [if_pos hmk] at hfr
      right
      rw [← hfr]
      exact ((matchKeyb_iff _ _ _ _).mp hmk).2.1
    · rw [if_neg hmk] at hfr
      exact Or.inl (hfr ▸ hr1)
  · rw [if_neg hany] at hr
    rcases List.mem_append.mp hr with hin | hnew
    · exact Or.inl hin
    · right
      simp only [List.mem_singleton] at hnew
      rw [hnew]
      rfl

theorem packStep_match {uid : Nat} {amt : ℚ} {bid y : Nat} {md : Date}
    {db : DB} {r : PaymentRecord}
    (hr : r ∈ (packStep uid amt bid y md db).schedule)
    (hmk : matchKeyb uid (monthName md.month) y r = true) :
    r.payment_status = "paid" ∧ r.amount = amt ∧ r.batch_id = bid := by
  unfold packStep at hr
  by_cases hany :
      db.schedule.any (fun x => matchKeyb uid (monthName md.month) y x) = true
  · rw [if_pos hany] at hr
    obtain ⟨r1, hr1, hfr⟩ := List.mem_map.mp hr
    by_cases hmk1 : matchKeyb uid (monthName md.month) y r1 = true
    · rw [if_pos hmk1] at hfr
      refine ⟨?_, ?_, ?_⟩ <;> rw [← hfr]
    · rw [if_neg hmk1] at hfr
      exact absurd (hfr ▸ hmk) hmk1
  · rw [if_neg hany] at hr
    rcases List.mem_append.mp hr with hin | hnew
    · have := (List.any_eq_false.mp (Bool.not_eq_true _ ▸ hany)) r hin
      · exact absurd hmk (by simpa using this)
    · simp only [List.mem_singleton] at hnew
      subst hnew
      exact ⟨rfl, rfl, rfl⟩

theorem packStep_exists (uid : Nat) (amt : ℚ) (bid y : Nat) (md : Date)
    (db : DB) :
    ∃ r ∈ (packStep uid amt bid y md db).schedule,
      r.user_id = uid ∧ r.month_name = monthName md.month ∧
        r.payment_status = "paid" := by
  unfold packStep
  by_cases hany :
      db.schedule.any (fun x => matchKeyb uid (monthName md.month) y x) = true
  · rw [if_pos hany]
    obtain ⟨r1, hr1, hmk⟩ := List.any_eq_true.mp hany
    obtain ⟨hu, hm, _⟩ := (matchKeyb_iff _ _ _ _).mp hmk
    refine ⟨_, List.mem_map.mpr ⟨r1, hr1, rfl⟩, ?_⟩
    rw [if_pos hmk]
    exact ⟨hu, hm, rfl⟩
  · rw [if_neg hany]
    exact ⟨newPaidRecord uid amt bid md,
      List.mem_append_right _ (List.mem_singleton.mpr rfl), rfl, rfl, rfl⟩

theorem packStep_insert {uid : Nat} {amt : ℚ} {bid y : Nat} {md : Date}
    {db : DB}
    (hno : ∀ r ∈ db.schedule,
      ¬(r.user_id = uid ∧ r.month_name = monthName md.month)) :
    (packStep uid amt bid y md db).schedule =
      db.schedule ++ [newPaidRecord uid amt bid md] := by
  unfold packStep
  rw [if_neg]
  intro hany
  obtain ⟨r1, hr1, hmk⟩ := List.any_eq_true.mp hany
  obtain ⟨hu, hm, _⟩ := (matchKeyb_iff _ _ _ _).mp hmk
  exact hno r1 hr1 ⟨hu, hm⟩

theorem packLoop_spec (uid : Nat) (amt : ℚ) (bid y : Nat) :
    ∀ (ds : List Date) (db : DB),
      (ds.map (fun md => monthName md.month)).Nodup →
      (∀ r ∈ db.schedule,
          r.month_name ∉ ds.map (fun md => monthName md.month) →
          r ∈ (packLoop uid amt bid y ds db).schedule) ∧
      (∀ r ∈ (packLoop uid amt bid y ds db).schedule,
          r ∈ db.schedule ∨
            r.month_name ∈ ds.map (fun md => monthName md.month)) ∧
      (∀ md ∈ ds,
        (∀ r ∈ (packLoop uid amt bid y ds db).schedule,
            matchKeyb uid (monthName md.month) y r = true →
            r.payment_status = "paid" ∧ r.amount = amt ∧ r.batch_id = bid) ∧
        (∃ r ∈ (packLoop uid amt bid y ds db).schedule,
            r.user_id = uid ∧ r.month_name = monthName md.month ∧
              r.payment_status = "paid") ∧
        ((∀ r ∈ db.schedule,
            ¬(r.user_id = uid ∧ r.month_name = monthName md.month)) →
          ∃ r ∈ (packLoop uid amt bid y ds db).schedule,
            r.user_id = uid ∧ r.month_name = monthName md.month ∧
              r.start_date = md ∧ r.amount = amt ∧
              r.payment_status = "paid" ∧ r.batch_id = bid)) := by
  intro ds
  induction ds with
  | nil =>
    intro db _
    refine ⟨fun r hr _ => hr, fun r hr => Or.inl hr, ?_⟩
    intro md hmd
    simp at hmd
  | cons md0 ds ih =>
    intro db hnd
    simp only [List.map_cons, List.nodup_cons] at hnd
    obtain ⟨hhead, htail⟩ := hnd
    have hloop : packLoop uid amt bid y (md0 :: ds) db =
        packLoop uid amt bid y ds (packStep uid amt bid y md0 db) := rfl
    obtain ⟨F, O, P⟩ := ih (packStep uid amt bid y md0 db) htail
    rw [hloop]
    refine ⟨?_, ?_, ?_⟩
    · -- frame
      intro r hr hname
      simp only [List.map_cons, List.mem_cons] at hname
      push_neg at hname
      exact F r (packStep_frame hr hname.1) hname.2
    · -- origin
      intro r hr
      rcases O r hr with hin1 | htl
      · rcases packStep_origin hin1 with hin | hhd
        · exact Or.inl hin
        · right
          simp only [List.map_cons, List.mem_cons]
          exact Or.inl hhd
      · right
        simp only [List.map_cons, List.mem_cons]
        exact Or.inr htl
    · -- per-month facts
      intro md hmd
      rcases List.mem_cons.mp hmd with hmd0 | hmds
      · subst hmd0
        refine ⟨?_, ?_, ?_⟩
        · -- every current-year row with this month name ends paid
          intro r hr hmk
          rcases O r hr with hin1 | htl
          · exact packStep_match hin1 hmk
          · exact absurd (((matchKeyb_iff _ _ _ _).mp hmk).2.1 ▸ htl) hhead
        · -- a paid row with this month name exists
          obtain ⟨r0, hr0, hu, hm, hp⟩ := packStep_exists uid amt bid y md db
          exact ⟨r0, F r0 hr0 (hm ▸ hhead), hu, hm, hp⟩
        · -- no previous row at all: the inserted row survives
          intro hno
          have hins : (packStep uid amt bid y md db).schedule =
              db.schedule ++ [newPaidRecord uid amt bid md] :=
            packStep_insert hno
          have hnew : newPaidRecord uid amt bid md ∈
              (packStep uid amt bid y md db).schedule := by
            rw [hins]
            exact List.mem_append_right _ (List.mem_singleton.mpr rfl)
          refine ⟨newPaidRecord uid amt bid md, F _ hnew hhead, rfl, rfl,
            rfl, rfl, rfl, rfl⟩
      · refine ⟨(P md hmds).1, (P md hmds).2.1, ?_⟩
        intro hno
        refine (P md hmds).2.2 ?_
        intro r hr1 hrk
        rcases packStep_origin hr1 with hin | hhd
        · exact hno r hin hrk
        · have hmem : monthName md.month ∈
              ds.map (fun x => monthName x.month) :=
            List.mem_map.mpr ⟨md, hmds, rfl⟩
          rw [hrk.2] at hhd
          exact hhead (hhd ▸ hmem)

/-- C1, counterexample: in a state whose only schedule row is already
paid (October 2025, amount 500, batch 1), applying a 3-month pack payment
changes the schedule - the paid row is overwritten with the new amount
1333 and batch 2 - contradicting the claim that a record whose status is
already Paid is never modified. -/
theorem pack_overwrites_paid_cex :
    (∀ r ∈ dbPackPaid.schedule, r.payment_status = "paid") ∧
    (updatePackPayment 1 "October" 3 1333 2 ⟨2025, 10, 12⟩
        dbPackPaid).1.schedule ≠ dbPackPaid.schedule ∧
    (∃ r ∈ (updatePackPayment 1 "October" 3 1333 2 ⟨2025, 10, 12⟩
        dbPackPaid).1.schedule,
      r.month_name = "October" ∧ r.amount = 1333 ∧ r.batch_id = 2 ∧
        r.payment_status = "paid") := by
  decide

/-- C1, amended: once the anchor row for the hinted month is found, a pack
payment of length L ≤ 12 returns True and, for each of the L consecutive
months from the anchor, (a) every current-year row of the user for that
month name ends with status paid and the new amount and batch - rows
already Paid are overwritten rather than skipped, which is the amendment -
(b) a paid row for that month name exists afterwards, and (c) a month with
no pre-existing row for the user gets a freshly inserted paid row with the
new amount and batch. -/
theorem updatePackPayment_amended (db : DB) (uid : Nat) (sm : String)
    (L : Nat) (amt : ℚ) (bid : Nat) (today : Date)
    (anchor : PaymentRecord)
    (hfind : db.schedule.find?
      (fun r => matchKeyb uid sm today.year r) = some anchor)
    (hL : L ≤ 12) :
    (updatePackPayment uid sm L amt bid today db).2 = true ∧
    ∀ i, i < L →
      (∀ r ∈ (updatePackPayment uid sm L amt bid today db).1.schedule,
          matchKeyb uid (monthName (addMonths anchor.start_date i).month)
              today.year r = true →
          r.payment_status = "paid" ∧ r.amount = amt ∧ r.batch_id = bid) ∧
      (∃ r ∈ (updatePackPayment uid sm L amt bid today db).1.schedule,
          r.user_id = uid ∧
            r.month_name = monthName (addMonths anchor.start_date i).month ∧
            r.payment_status = "paid") ∧
      ((∀ r ∈ db.schedule,
          ¬(r.user_id = uid ∧
            r.month_name =
              monthName (addMonths anchor.start_date i).month)) →
        ∃ r ∈ (updatePackPayment uid sm L amt bid today db).1.schedule,
          r.user_id = uid ∧
            r.month_name = monthName (addMonths anchor.start_date i).month ∧
            r.start_date = addMonths anchor.start_date i ∧ r.amount = amt ∧
            r.payment_status = "paid" ∧ r.batch_id = bid) := by
  have hred : updatePackPayment uid sm L amt bid today db =
      (packLoop uid amt bid today.year
        ((List.range L).map (fun i => addMonths anchor.start_date i)) db,
       true) := by
    unfold updatePackPayment
    rw [hfind]
  rw [hred]
  refine ⟨rfl, ?_⟩
  intro i hi
  have hnd : (((List.range L).map
      (fun i => addMonths anchor.start_date i)).map
      (fun md => monthName md.month)).Nodup :=
    genDates_names_nodup anchor.start_date L hL
  obtain ⟨F, O, P⟩ := packLoop_spec uid amt bid today.year
    ((List.range L).map (fun i => addMonths anchor.start_date i)) db hnd
  have hmem : addMonths anchor.start_date i ∈
      (List.range L).map (fun i => addMonths anchor.start_date i) :=
    List.mem_map.mpr ⟨i, List.mem_range.mpr hi, rfl⟩
  exact P (addMonths anchor.start_date i) hmem

/-- C1, witness: the amended pack theorem applied at a concrete state with
a Due October 2025 anchor row. -/
theorem updatePackPayment_amended_witness :
    dbPackDue.schedule.find?
        (fun r => matchKeyb 1 "October" (Date.mk 2025 10 12).year r) =
      some dueOctRec ∧
    3 ≤ 12 ∧
    (updatePackPayment 1 "October" 3 1333 2 ⟨2025, 10, 12⟩ dbPackDue).2 =
      true :=
  ⟨by decide, by decide,
   (updatePackPayment_amended dbPackDue 1 "October" 3 1333 2 ⟨2025, 10, 12⟩
     dueOctRec (by decide) (by decide)).1⟩

/-- C2, counterexample: deactivating the user for October 2025 leaves the
November 2025 row - whose period starts after the end of the current
month and which is still Due - in place, and leaves two schedule rows
rather than exactly one closed record, contradicting the claim that all
future-starting records are deleted. -/
theorem inactive_keeps_future_cex :
    dateLt ⟨2025, 10, 31⟩ dueNovRec.start_date ∧
    dueNovRec.payment_status = "Due" ∧
    dueNovRec ∈ (markUserInactive 1 "October" ⟨2025, 10, 12⟩
      dbInactive).1.schedule ∧
    (markUserInactive 1 "October" ⟨2025, 10, 12⟩
      dbInactive).1.schedule.length = 2 := by
  decide

/-- C2, amended: deactivation returns True, deletes nothing (the schedule
keeps its length), zeroes and closes (status paid, amount 0) exactly the
user's current-year row(s) for the given month name, leaves every other
schedule row unchanged, and flips the user's status to inactive while
leaving other users unchanged. -/
theorem markUserInactive_amended (db : DB) (uid : Nat) (mn : String)
    (today : Date) :
    (markUserInactive uid mn today db).2 = true ∧
    (markUserInactive uid mn today db).1.schedule.length =
      db.schedule.length ∧
    (∀ r ∈ db.schedule, matchKeyb uid mn today.year r = true →
      { r with amount := 0, payment_status := "paid" } ∈
        (markUserInactive uid mn today db).1.schedule) ∧
    (∀ r ∈ db.schedule, matchKeyb uid mn today.year r = false →
      r ∈ (markUserInactive uid mn today db).1.schedule) ∧
    (∀ u ∈ db.users,
      (u.id = uid → { u with status := "inactive" } ∈
        (markUserInactive uid mn today db).1.users) ∧
      (u.id ≠ uid → u ∈ (markUserInactive uid mn today db).1.users)) := by
  refine ⟨rfl, List.length_map _ _, ?_, ?_, ?_⟩
  · intro r hr hmk
    refine List.mem_map.mpr ⟨r, hr, ?_⟩
    rw [if_pos hmk]
  · intro r hr hmk
    refine List.mem_map.mpr ⟨r, hr, ?_⟩
    rw [if_neg]
    simp [hmk]
  · intro u hu
    constructor
    · intro hid
      refine List.mem_map.mpr ⟨u, hu, ?_⟩
      rw [if_pos]
      simp [hid]
    · intro hid
      refine List.mem_map.mpr ⟨u, hu, ?_⟩
      rw [if_neg]
      simp [hid]

/-- C2, witness: the amended deactivation theorem applied at a concrete
two-row state. -/
theorem markUserInactive_amended_witness :
    (markUserInactive 1 "October" ⟨2025, 10, 12⟩ dbInactive).2 = true ∧
    (markUserInactive 1 "October" ⟨2025, 10, 12⟩
      dbInactive).1.schedule.length = dbInactive.schedule.length :=
  ⟨(markUserInactive_amended dbInactive 1 "October" ⟨2025, 10, 12⟩).1,
   (markUserInactive_amended dbInactive 1 "October" ⟨2025, 10, 12⟩).2.1⟩

/-! Schedule-generation month-loop lemmas. -/

theorem upMatch_iff (uid : Nat) (mn : String) (r : PaymentRecord) :
    upMatch uid mn r = true ↔ r.user_id = uid ∧ r.month_name = mn := by
  simp [upMatch]

theorem addMonths_zero_month (d : Date) (h1 : 1 ≤ d.month)
    (h2 : d.month ≤ 12) : (addMonths d 0).month = d.month := by
  simp only [addMonths, Nat.add_zero]
  rw [Nat.mod_eq_of_lt (by omega)]
  omega

theorem addMonths_zero_year (d : Date) (h2 : d.month ≤ 12) :
    (addMonths d 0).year = d.year := by
  simp only [addMonths, Nat.add_zero]
  rw [Nat.div_eq_of_lt (by omega)]
  omega

theorem upStep_insert {uid : Nat} {amt : ℚ} {bid : Nat} {md : Date}
    {db : DB}
    (hno : ∀ r ∈ db.schedule, ¬upMatch uid (monthName md.month) r = true) :
    (upStep uid amt bid md db).schedule =
      db.schedule ++ [newDueRecord uid amt bid md] := by
  unfold upStep
  rw [if_neg]
  intro hany
  obtain ⟨r1, hr1, hmk⟩ := List.any_eq_true.mp hany
  exact hno r1 hr1 hmk

theorem upStep_match {uid : Nat} {amt : ℚ} {bid : Nat} {md : Date}
    {db : DB} {r : PaymentRecord}
    (hr : r ∈ (upStep uid amt bid md db).schedule)
    (hmk : upMatch uid (monthName md.month) r = true) :
    r.amount = amt ∧ r.start_date = md ∧ r.end_date = upEnd md ∧
      r.batch_id = bid ∧ r.payment_status = "Due" := by
  unfold upStep at hr
  by_cases hany :
      db.schedule.any (fun x => upMatch uid (monthName md.month) x) = true
  · rw [if_pos hany] at hr
    obtain ⟨r1, hr1, hfr⟩ := List.mem_map.mp hr
    by_cases hmk1 : upMatch uid (monthName md.month) r1 = true
    · rw [if_pos hmk1] at hfr
      refine ⟨?_, ?_, ?_, ?_, ?_⟩ <;> rw [← hfr]
    · rw [if_neg hmk1] at hfr
      exact absurd (hfr ▸ hmk) hmk1
  · rw [if_neg hany] at hr
    rcases List.mem_append.mp hr with hin | hnew
    · have := (List.any_eq_false.mp (Bool.not_eq_true _ ▸ hany)) r hin
      exact absurd hmk (by simpa using this)
    · simp only [List.mem_singleton] at hnew
      subst hnew
      exact ⟨rfl, rfl, rfl, rfl, rfl⟩

theorem upStep_len_of_match {uid : Nat} {amt : ℚ} {bid : Nat} {md : Date}
    {db : DB}
    (hex : ∃ r ∈ db.schedule, upMatch uid (monthName md.month) r = true) :
    (upStep uid amt bid md db).schedule.length = db.schedule.length := by
  unfold upStep
  obtain ⟨r1, hr1, hmk⟩ := hex
  rw [if_pos (List.any_eq_true.mpr ⟨r1, hr1, hmk⟩)]
  exact List.length_map _ _

theorem upStep_preserves_match {uid : Nat} {amt : ℚ} {bid : Nat}
    {md : Date} {db : DB} (mn : String)
    (hex : ∃ r ∈ db.schedule, upMatch uid mn r = true) :
    ∃ r ∈ (upStep uid amt bid md db).schedule, upMatch uid mn r = true := by
  obtain ⟨r1, hr1, hmk⟩ := hex
  unfold upStep
  by_cases hany :
      db.schedule.any (fun x => upMatch uid (monthName md.month) x) = true
  · rw [if_pos hany]
    refine ⟨_, List.mem_map.mpr ⟨r1, hr1, rfl⟩, ?_⟩
    by_cases hmk1 : upMatch uid (monthName md.month) r1 = true
    · rw [if_pos hmk1]
      obtain ⟨hu, hm⟩ := (upMatch_iff _ _ _).mp hmk
      exact (upMatch_iff _ _ _).mpr ⟨hu, hm⟩
    · rw [if_neg hmk1]
      exact hmk
  · rw [if_neg hany]
    exact ⟨r1, List.mem_append_left _ hr1, hmk⟩

theorem upLoop_len {uid : Nat} {amt : ℚ} {bid : Nat} :
    ∀ (ds : List Date) (db : DB),
      (∀ md ∈ ds, ∃ r ∈ db.schedule,
        upMatch uid (monthName md.month) r = true) →
      (upLoop uid amt bid ds db).schedule.length = db.schedule.length := by
  intro ds
  induction ds with
  | nil => intro db _; rfl
  | cons md0 ds ih =>
    intro db hall
    have hstep : (upLoop uid amt bid (md0 :: ds) db) =
        upLoop uid amt bid ds (upStep uid amt bid md0 db) := rfl
    rw [hstep]
    have h0 := hall md0 (List.mem_cons_self _ _)
    rw [ih (upStep uid amt bid md0 db)
      (fun md hmd => upStep_preserves_match _ (hall md
        (List.mem_cons_of_mem _ hmd)))]
    exact upStep_len_of_match h0

theorem upLoop_fresh {uid : Nat} {amt : ℚ} {bid : Nat} :
    ∀ (ds : List Date) (db : DB),
      (ds.map (fun md => monthName md.month)).Nodup →
      (∀ r ∈ db.schedule, r.user_id = uid →
        r.month_name ∉ ds.map (fun md => monthName md.month)) →
      (upLoop uid amt bid ds db).schedule =
        db.schedule ++ ds.map (fun md => newDueRecord uid amt bid md) := by
  intro ds
  induction ds with
  | nil => intro db _ _; simp [upLoop]
  | cons md0 ds ih =>
    intro db hnd hfresh
    simp only [List.map_cons, List.nodup_cons] at hnd
    obtain ⟨hhead, htail⟩ := hnd
    have hstep : (upLoop uid amt bid (md0 :: ds) db) =
        upLoop uid amt bid ds (upStep uid amt bid md0 db) := rfl
    have hins : (upStep uid amt bid md0 db).schedule =
        db.schedule ++ [newDueRecord uid amt bid md0] := by
      apply upStep_insert
      intro r hr hmk
      obtain ⟨hu, hm⟩ := (upMatch_iff _ _ _).mp hmk
      exact (hfresh r hr hu) (by
        simp only [List.map_cons, List.mem_cons]
        exact Or.inl hm)
    rw [hstep, ih (upStep uid amt bid md0 db) htail ?fresh, hins,
      List.append_assoc]
    · rfl
    case fresh =>
      intro r hr hu
      rw [hins] at hr
      rcases List.mem_append.mp hr with hin | hnew
      · intro hmem
        exact (hfresh r hin hu) (by
          simp only [List.map_cons, List.mem_cons]
          exact Or.inr hmem)
      · simp only [List.mem_singleton] at hnew
        subst hnew
        exact hhead

/-- C3, counterexample: with a single existing row for (user 1, October,
year 2024, status paid) and generation run on 2025-10-12 with N = 1, the
claim says the (user, October, 2025) slot has no record, so a new record
is inserted and the 2024 slot's record stays untouched; the code instead
overwrites the 2024 row in place - afterwards no row with a 2024 start
date exists and the total row count is still 1, not 2. -/
theorem updatePayment_slot_cex :
    (∃ r ∈ dbOldYear.schedule, r.start_date.year = 2024) ∧
    (∀ r ∈ (updatePayment 1 1000 1 2 ⟨2025, 10, 12⟩ dbOldYear).1.schedule,
      r.start_date.year ≠ 2024) ∧
    (updatePayment 1 1000 1 2 ⟨2025, 10, 12⟩
      dbOldYear).1.schedule.length = 1 := by
  decide

/-- C3, amended: schedule generation upserts keyed on (user, month name)
alone.  For 1 ≤ N ≤ 12 and a user with no prior schedule rows it appends
exactly N fresh rows, one per month name starting at the current date,
each with status Due and amount A/N; the user then has exactly N rows;
and re-running generation with a different amount over the same N months
overwrites those same rows without changing the row count. -/
theorem updatePayment_amended (db : DB) (uid : Nat) (A : ℚ) (N : Nat)
    (bid : Nat) (today : Date) (_hN : 1 ≤ N) (hN12 : N ≤ 12)
    (hfresh : ∀ r ∈ db.schedule, r.user_id ≠ uid) :
    (updatePayment uid A N bid today db).1.schedule =
      db.schedule ++ (genDates today N).map
        (fun md => newDueRecord uid (A / (N : ℚ)) bid md) ∧
    ((updatePayment uid A N bid today db).1.schedule.filter
        (fun r => r.user_id == uid)).length = N ∧
    (∀ r ∈ (updatePayment uid A N bid today db).1.schedule,
      r.user_id = uid →
        r.payment_status = "Due" ∧ r.amount = A / (N : ℚ)) ∧
    (∀ A2 : ℚ,
      (updatePayment uid A2 N bid today
          (updatePayment uid A N bid today db).1).1.schedule.length =
        (updatePayment uid A N bid today db).1.schedule.length) := by
  have hmain : (updatePayment uid A N bid today db).1.schedule =
      db.schedule ++ (genDates today N).map
        (fun md => newDueRecord uid (A / (N : ℚ)) bid md) :=
    upLoop_fresh (genDates today N) db (genDates_names_nodup today N hN12)
      (fun r hr hu _ => absurd hu (hfresh r hr))
  have hexists : ∀ md ∈ genDates today N,
      ∃ r ∈ (updatePayment uid A N bid today db).1.schedule,
        upMatch uid (monthName md.month) r = true := by
    intro md hmd
    refine ⟨newDueRecord uid (A / (N : ℚ)) bid md, ?_, ?_⟩
    · rw [hmain]
      exact List.mem_append_right _ (List.mem_map.mpr ⟨md, hmd, rfl⟩)
    · simp [upMatch, newDueRecord]
  refine ⟨hmain, ?_, ?_, ?_⟩
  · rw [hmain, List.filter_append]
    have h1 : db.schedule.filter (fun r => r.user_id == uid) = [] := by
      apply List.filter_eq_nil_iff.mpr
      intro r hr
      simp only [beq_iff_eq]
      exact hfresh r hr
    have h2 : ((genDates today N).map
        (fun md => newDueRecord uid (A / (N : ℚ)) bid md)).filter
        (fun r => r.user_id == uid) =
        (genDates today N).map
          (fun md => newDueRecord uid (A / (N : ℚ)) bid md) := by
      apply List.filter_eq_self.mpr
      intro r hrm
      obtain ⟨md, _, hre⟩ := List.mem_map.mp hrm
      rw [← hre]
      simp [newDueRecord]
    rw [h1, h2]
    simp [genDates]
  · intro r hr hu
    rw [hmain] at hr
    rcases List.mem_append.mp hr with hin | hnew
    · exact absurd hu (hfresh r hin)
    · obtain ⟨md, _, hre⟩ := List.mem_map.mp hnew
      rw [← hre]
      exact ⟨rfl, rfl⟩
  · intro A2
    exact upLoop_len (genDates today N)
      (updatePayment uid A N bid today db).1 hexists

/-- C3, witness: the amended generation theorem applied to an empty state
with N = 3 months. -/
theorem updatePayment_amended_witness :
    1 ≤ 3 ∧ 3 ≤ 12 ∧
    (∀ r ∈ (DB.mk [] []).schedule, r.user_id ≠ 1) ∧
    ((updatePayment 1 3000 3 2 ⟨2025, 10, 12⟩
        (DB.mk [] [])).1.schedule.filter
      (fun r => r.user_id == 1)).length = 3 :=
  ⟨by decide, by decide, by decide,
   (updatePayment_amended (DB.mk [] []) 1 3000 3 2 ⟨2025, 10, 12⟩
     (by decide) (by decide) (by decide)).2.1⟩

/-- C9: schedule generation identifies an existing slot by (user, month
name) alone.  If the user holds a row with the current month's name from a
different year, running generation (one month) inserts nothing - the row
count is unchanged - and every row of the user carrying that month name
is overwritten in place with the current date as start date (whose year
is the current year), status Due and the new batch. -/
theorem updatePayment_key_ignores_year (db : DB) (uid : Nat) (A : ℚ)
    (bid : Nat) (today : Date)
    (hm1 : 1 ≤ today.month) (hm2 : today.month ≤ 12)
    (hex : ∃ r ∈ db.schedule, r.user_id = uid ∧
      r.month_name = monthName today.month ∧
      r.start_date.year ≠ today.year) :
    (updatePayment uid A 1 bid today db).1.schedule.length =
      db.schedule.length ∧
    (∀ r ∈ (updatePayment uid A 1 bid today db).1.schedule,
      r.user_id = uid → r.month_name = monthName today.month →
        r.start_date = addMonths today 0 ∧ r.payment_status = "Due" ∧
          r.batch_id = bid) ∧
    (addMonths today 0).year = today.year := by
  have hmn : monthName (addMonths today 0).month = monthName today.month :=
    by rw [addMonths_zero_month today hm1 hm2]
  obtain ⟨r0, hr0, hu0, hm0, _⟩ := hex
  have hex1 : ∃ r ∈ db.schedule,
      upMatch uid (monthName (addMonths today 0).month) r = true :=
    ⟨r0, hr0, (upMatch_iff _ _ _).mpr ⟨hu0, by rw [hmn]; exact hm0⟩⟩
  have hstep : (updatePayment uid A 1 bid today db).1.schedule =
      (upStep uid (A / ((1 : Nat) : ℚ)) bid (addMonths today 0)
        db).schedule := rfl
  refine ⟨?_, ?_, addMonths_zero_year today hm2⟩
  · rw [hstep]
    exact upStep_len_of_match hex1
  · intro r hr hu hm
    rw [hstep] at hr
    have hres := upStep_match hr
      ((upMatch_iff _ _ _).mpr ⟨hu, by rw [hmn]; exact hm⟩)
    exact ⟨hres.2.1, hres.2.2.2.2, hres.2.2.2.1⟩

/-- C9, witness: the year-less keying theorem applied to a state whose
only row is (user 1, October, 2024) while the current date is
2025-10-12. -/
theorem updatePayment_key_ignores_year_witness :
    1 ≤ (Date.mk 2025 10 12).month ∧ (Date.mk 2025 10 12).month ≤ 12 ∧
    (∃ r ∈ dbOldYearSlot.schedule, r.user_id = 1 ∧
      r.month_name = monthName (Date.mk 2025 10 12).month ∧
      r.start_date.year ≠ (Date.mk 2025 10 12).year) ∧
    (updatePayment 1 1000 1 2 ⟨2025, 10, 12⟩
        dbOldYearSlot).1.schedule.length = dbOldYearSlot.schedule.length :=
  ⟨by decide, by decide, by decide,
   (updatePayment_key_ignores_year dbOldYearSlot 1 1000 2 ⟨2025, 10, 12⟩
     (by decide) (by decide) (by decide)).1⟩

/-- C4: `update_payment` has no return statement, so every call yields
None - never the boolean success signal the claim requires - and the
chat layer's truthiness check therefore reports failure even on the
modelled success path, where the records were in fact written (the
concrete run below commits three rows and still reports failure). -/
theorem updatePayment_returns_none (uid : Nat) (A : ℚ) (N : Nat)
    (bid : Nat) (today : Date) (db : DB) :
    (updatePayment uid A N bid today db).2 = none ∧
    (batchIdHandler uid A N bid today db).2 =
      "Failed to update payment information." ∧
    (batchIdHandler 1 3000 3 2 ⟨2025, 10, 12⟩
      (DB.mk [] [])).1.schedule.length = 3 :=
  ⟨rfl, rfl, by decide⟩

/-- C5, counterexample: with a working token, requesting a report for the
malformed date string 2025-99-99 does return the specific rejection
message, but only after the authentication round-trip - the network-call
trace at the moment of rejection is [auth], not empty, contradicting the
claim that no network call happens before the rejection. -/
theorem report_validates_after_auth_cex :
    (getAttendanceReport envAuthOk ⟨some "host"⟩ ⟨2025, 10, 12⟩
        (some "2025-99-99")).2 =
      ReportOutcome.message (invalidDateMsg "2025-99-99") ∧
    (getAttendanceReport envAuthOk ⟨some "host"⟩ ⟨2025, 10, 12⟩
        (some "2025-99-99")).1 = [NetCall.auth] ∧
    [NetCall.auth] ≠ ([] : List NetCall) :=
  ⟨rfl, rfl, by decide⟩

/-- C5, amended: when authentication succeeds, a malformed target date is
rejected with the specific invalid-date message and a future target date
with the specific future-date message, in both cases after exactly the
authentication round-trip and before any user-lookup, meeting-listing or
participant network call. -/
theorem report_rejects_after_auth (env : ZoomEnv) (cfg : ReportConfig)
    (today : Date) (s : String) (t : String)
    (htok : env.token = some t) :
    (parseDate s = none →
      getAttendanceReport env cfg today (some s) =
        ([NetCall.auth], ReportOutcome.message (invalidDateMsg s))) ∧
    (∀ d, parseDate s = some d → dateLt today d →
      getAttendanceReport env cfg today (some s) =
        ([NetCall.auth], ReportOutcome.message (futureDateMsg s))) := by
  constructor
  · intro hp
    simp only [getAttendanceReport, htok, hp]
  · intro d hp hlt
    simp only [getAttendanceReport, htok, hp]
    rw [if_pos hlt]

/-- C5, witness: the amended rejection theorem applied to a concrete
environment and the malformed date string 2025-99-99. -/
theorem report_rejects_after_auth_witness :
    envAuthOk.token = some "tok" ∧ parseDate "2025-99-99" = none ∧
    getAttendanceReport envAuthOk ⟨some "host"⟩ ⟨2025, 10, 12⟩
        (some "2025-99-99") =
      ([NetCall.auth], ReportOutcome.message (invalidDateMsg "2025-99-99")) :=
  ⟨rfl, by decide,
   (report_rejects_after_auth envAuthOk ⟨some "host"⟩ ⟨2025, 10, 12⟩
     "2025-99-99" "tok" rfl).1 (by decide)⟩

/-- C7: every meeting instance surviving the report's matching stage has
an IST start date - the UTC start timestamp plus 5 hours 30 minutes -
equal to the target date; the date filter holds exactly when the IST
conversion of the parsed timestamp lands on the target; and concretely,
the instance starting 2025-11-23T19:00:00Z parses to 19:00 UTC, converts
to 2025-11-24 00:30 IST, is kept for target 2025-11-24 and discarded for
target 2025-11-23. -/
theorem attendance_ist_date (ms : List Meeting) (target : Date) :
    (∀ b m, (b, m) ∈ matchedMeetings ms target →
      ∃ dt, parseZoomTime m.start_time = some dt ∧
        (addMinutes dt 330).date = target) ∧
    (∀ s, dateMatches target s = true ↔
      ∃ dt, parseZoomTime s = some dt ∧ (addMinutes dt 330).date = target) ∧
    parseZoomTime "2025-11-23T19:00:00Z" =
      some ⟨⟨2025, 11, 23⟩, 19, 0⟩ ∧
    (addMinutes ⟨⟨2025, 11, 23⟩, 19, 0⟩ 330).date = ⟨2025, 11, 24⟩ ∧
    dateMatches ⟨2025, 11, 24⟩ "2025-11-23T19:00:00Z" = true ∧
    dateMatches ⟨2025, 11, 23⟩ "2025-11-23T19:00:00Z" = false := by
  have hiff : ∀ s, dateMatches target s = true ↔
      ∃ dt, parseZoomTime s = some dt ∧
        (addMinutes dt 330).date = target := by
    intro s
    unfold dateMatches
    cases hp : parseZoomTime s with
    | none => simp
    | some dt => simp [hp]
  refine ⟨?_, hiff, by decide, by decide, by decide, by decide⟩
  intro b m hm
  obtain ⟨m1, _, heq⟩ := List.mem_filterMap.mp hm
  cases hb : matchBatch m1.id with
  | none => rw [hb] at heq; simp at heq
  | some b1 =>
    rw [hb] at heq
    dsimp only at heq
    by_cases hd : dateMatches target m1.start_time = true
    · rw [if_pos hd] at heq
      simp only [Option.some.injEq, Prod.mk.injEq] at heq
      obtain ⟨dt, hdt, hdate⟩ := (hiff m1.start_time).mp hd
      exact ⟨dt, heq.2 ▸ hdt, hdate⟩
    · rw [if_neg hd] at heq
      simp at heq

/-- C7, witness: the timezone theorem applied at the concrete instance of
the claim. -/
theorem attendance_ist_date_witness :
    dateMatches ⟨2025, 11, 24⟩ "2025-11-23T19:00:00Z" = true ∧
    dateMatches ⟨2025, 11, 23⟩ "2025-11-23T19:00:00Z" = false :=
  ⟨(attendance_ist_date [] ⟨2025, 11, 24⟩).2.2.2.2.1,
   (attendance_ist_date [] ⟨2025, 11, 24⟩).2.2.2.2.2⟩

/-- C8: the pack3 and pack6 buttons call update_pack_payment with four
positional arguments while the function declares five parameters without
defaults, so the call raises TypeError before the function body runs:
the outcome is typeError and the database state is returned unchanged,
for every state and input. -/
theorem pack_buttons_raise_type_error (db : DB) (uid : Nat)
    (month : String) (today : Date) :
    buttonCallback "pack3" uid month today db =
      (db, CallOutcome.typeError) ∧
    buttonCallback "pack6" uid month today db =
      (db, CallOutcome.typeError) := by
  constructor <;> rfl

/-- C8, witness: the pack-button theorem applied at a concrete state. -/
theorem pack_buttons_raise_type_error_witness :
    buttonCallback "pack3" 1 "October" ⟨2025, 10, 12⟩ (DB.mk [] []) =
      (DB.mk [] [], CallOutcome.typeError) :=
  (pack_buttons_raise_type_error (DB.mk [] []) 1 "October" ⟨2025, 10, 12⟩).1

/-! Lemmas about the due-users query. -/

theorem eligibleRec_iff (today : Date) (r : PaymentRecord) :
    eligibleRec today r = true ↔
      r.payment_status = "Due" ∧ followUpOk today r.follow_up = true := by
  simp [eligibleRec]

theorem userMinDue_mem {db : DB} {today : Date} {uid : Nat} {m : Date}
    (h : userMinDue db today uid = some m) :
    ∃ rec ∈ db.schedule, rec.user_id = uid ∧
      rec.payment_status = "Due" ∧ followUpOk today rec.follow_up = true ∧
      rec.start_date = m := by
  unfold userMinDue at h
  obtain ⟨rec, hrecf, hrs⟩ := List.mem_map.mp (dateMin_mem h)
  obtain ⟨hrec, hpred⟩ := List.mem_filter.mp hrecf
  simp only [Bool.and_eq_true, beq_iff_eq] at hpred
  obtain ⟨hu, helig⟩ := hpred
  obtain ⟨hdue, hok⟩ := (eligibleRec_iff today rec).mp helig
  exact ⟨rec, hrec, hu, hdue, hok, hrs⟩

theorem userMinDue_le {db : DB} {today : Date} {uid : Nat} {m : Date}
    (h : userMinDue db today uid = some m) :
    ∀ rec ∈ db.schedule, rec.user_id = uid → rec.payment_status = "Due" →
      followUpOk today rec.follow_up = true → dateLe m rec.start_date := by
  intro rec hrec hu hdue hok
  unfold userMinDue at h
  apply dateMin_le h
  refine List.mem_map.mpr ⟨rec, ?_, rfl⟩
  refine List.mem_filter.mpr ⟨hrec, ?_⟩
  simp [hu, eligibleRec, hdue, hok]

theorem fetchRowFn_eq_some {db : DB} {today : Date} {u : User}
    {row : DueRow} (h : fetchRowFn db today u = some row) :
    userMinDue db today u.id = some row.start_date ∧ row.id = u.id := by
  unfold fetchRowFn at h
  cases hm : userMinDue db today u.id with
  | none => rw [hm] at h; exact absurd h (by simp)
  | some m =>
    rw [hm] at h
    simp only [Option.some.injEq] at h
    subst h
    exact ⟨rfl, rfl⟩

theorem fetch_ids_sublist (db : DB) (today : Date) :
    ∀ us : List User,
      ((us.filterMap (fetchRowFn db today)).map DueRow.id).Sublist
        (us.map User.id) := by
  intro us
  induction us with
  | nil => simp
  | cons u us ih =>
    cases h : fetchRowFn db today u with
    | none =>
      simp only [List.filterMap_cons, h, List.map_cons]
      exact ih.cons u.id
    | some row =>
      simp only [List.filterMap_cons, h, List.map_cons]
      rw [(fetchRowFn_eq_some h).2]
      exact ih.cons₂ u.id

/-- C6: with distinct user ids, `fetch_unpaid_users` returns at most
`limit` rows; no user id appears twice; rows are sorted ascending by their
oldest due date; each row is keyed by an eligible Due record of that user
(status Due, follow-up null or older than the 4-day cooldown) whose start
date is minimal among the user's eligible Due records; and a user all of
whose Due records sit inside the cooldown window is excluded. -/
theorem fetchUnpaidUsers_spec (db : DB) (today : Date) (limit : Nat)
    (hids : (db.users.map User.id).Nodup) :
    (fetchUnpaidUsers db today limit).length ≤ limit ∧
    ((fetchUnpaidUsers db today limit).map DueRow.id).Nodup ∧
    List.Pairwise rowLe (fetchUnpaidUsers db today limit) ∧
    (∀ row ∈ fetchUnpaidUsers db today limit,
      (∃ rec ∈ db.schedule, rec.user_id = row.id ∧
        rec.payment_status = "Due" ∧
        followUpOk today rec.follow_up = true ∧
        rec.start_date = row.start_date) ∧
      (∀ rec ∈ db.schedule, rec.user_id = row.id →
        rec.payment_status = "Due" →
        followUpOk today rec.follow_up = true →
        dateLe row.start_date rec.start_date)) ∧
    (∀ row ∈ fetchUnpaidUsers db today limit, ∀ u : User,
      (∀ rec ∈ db.schedule, rec.user_id = u.id →
        rec.payment_status = "Due" →
        followUpOk today rec.follow_up = false) →
      row.id ≠ u.id) := by
  have hmemrow : ∀ row ∈ fetchUnpaidUsers db today limit,
      ∃ u ∈ db.users, fetchRowFn db today u = some row := by
    intro row hrow
    have h1 : row ∈ (db.users.filterMap
        (fetchRowFn db today)).insertionSort rowLe :=
      List.mem_of_mem_take hrow
    exact List.mem_filterMap.mp ((List.mem_insertionSort rowLe).mp h1)
  have hkey : ∀ row ∈ fetchUnpaidUsers db today limit,
      (∃ rec ∈ db.schedule, rec.user_id = row.id ∧
        rec.payment_status = "Due" ∧
        followUpOk today rec.follow_up = true ∧
        rec.start_date = row.start_date) ∧
      (∀ rec ∈ db.schedule, rec.user_id = row.id →
        rec.payment_status = "Due" →
        followUpOk today rec.follow_up = true →
        dateLe row.start_date rec.start_date) := by
    intro row hrow
    obtain ⟨u, _, hfu⟩ := hmemrow row hrow
    obtain ⟨hmin, hid⟩ := fetchRowFn_eq_some hfu
    rw [hid]
    constructor
    · exact userMinDue_mem hmin
    · exact fun rec hrec hu hdue hok =>
        userMinDue_le hmin rec hrec hu hdue hok
  refine ⟨?_, ?_, ?_, hkey, ?_⟩
  · rw [fetchUnpaidUsers, List.length_take]
    exact Nat.min_le_left _ _
  · have hsub := fetch_ids_sublist db today db.users
    have hrows : ((db.users.filterMap (fetchRowFn db today)).map
        DueRow.id).Nodup := hids.sublist hsub
    have hperm : (((db.users.filterMap (fetchRowFn db today)).insertionSort
        rowLe).map DueRow.id).Perm
        ((db.users.filterMap (fetchRowFn db today)).map DueRow.id) :=
      (List.perm_insertionSort rowLe _).map DueRow.id
    have hsorted := hperm.nodup_iff.mpr hrows
    exact hsorted.sublist ((List.take_sublist _ _).map DueRow.id)
  · exact (List.sorted_insertionSort rowLe _).sublist
      (List.take_sublist _ _)
  · intro row hrow u hall hidq
    obtain ⟨rec, hrec, hu, hdue, hok, _⟩ := (hkey row hrow).1
    rw [hidq] at hu
    rw [hall rec hrec hu hdue] at hok
    exact absurd hok (by decide)

/-- C6, witness: the due-users theorem applied at a concrete one-user
state. -/
theorem fetchUnpaidUsers_spec_witness :
    (dbFetch.users.map User.id).Nodup ∧
    (fetchUnpaidUsers dbFetch ⟨2025, 10, 12⟩ 5).length ≤ 5 :=
  ⟨by decide,
   (fetchUnpaidUsers_spec dbFetch ⟨2025, 10, 12⟩ 5 (by decide)).1⟩

/-! Deactivation frame lemmas. -/

theorem fetchRowFn_status_invariant (db : DB) (t : Date) (uid : Nat)
    (u : User) :
    fetchRowFn db t
        (if u.id == uid then { u with status := "inactive" } else u) =
      fetchRowFn db t u := by
  by_cases hc : (u.id == uid) = true
  · rw [if_pos hc]
    rfl
  · rw [if_neg hc]

theorem filterMap_fetch_status (db : DB) (t : Date) (uid : Nat) :
    ∀ us : List User,
      (us.map (fun u =>
        if u.id == uid then { u with status := "inactive" }
        else u)).filterMap (fetchRowFn db t) =
        us.filterMap (fetchRowFn db t) := by
  intro us
  induction us with
  | nil => rfl
  | cons u us ih =>
    simp only [List.map_cons, List.filterMap_cons,
      fetchRowFn_status_invariant, ih]

/-- C10: deactivation touches only the user's current-year row(s) for the
given month name and the user's status field: every other schedule row is
still present unchanged, every other user row is unchanged, and the
due-users query is blind to user status - running it on the deactivated
state returns exactly what it returns on the same schedule with the
original (still active) user rows.  A deactivated user holding Due rows
for other months therefore still satisfies the query's selection. -/
theorem markUserInactive_frame (db : DB) (uid : Nat) (mn : String)
    (today today2 : Date) (limit : Nat) :
    (∀ r ∈ db.schedule, matchKeyb uid mn today.year r = false →
      r ∈ (markUserInactive uid mn today db).1.schedule) ∧
    (∀ u ∈ db.users, u.id ≠ uid →
      u ∈ (markUserInactive uid mn today db).1.users) ∧
    fetchUnpaidUsers (markUserInactive uid mn today db).1 today2 limit =
      fetchUnpaidUsers
        ⟨db.users, (markUserInactive uid mn today db).1.schedule⟩
        today2 limit := by
  refine ⟨?_, ?_, ?_⟩
  · intro r hr hmk
    refine List.mem_map.mpr ⟨r, hr, ?_⟩
    rw [if_neg]
    simp [hmk]
  · intro u hu hid
    refine List.mem_map.mpr ⟨u, hu, ?_⟩
    rw [if_neg]
    simp [hid]
  · have h1 : (markUserInactive uid mn today db).1 =
        ⟨db.users.map (fun u =>
           if u.id == uid then { u with status := "inactive" } else u),
         db.schedule.map (fun r =>
           if matchKeyb uid mn today.year r then
             { r with amount := 0, payment_status := "paid" }
           else r)⟩ := rfl
    rw [h1]
    unfold fetchUnpaidUsers
    rw [filterMap_fetch_status]
    rw [show fetchRowFn
        ⟨db.users.map (fun u =>
           if u.id == uid then { u with status := "inactive" } else u),
         db.schedule.map (fun r =>
           if matchKeyb uid mn today.year r then
             { r with amount := 0, payment_status := "paid" }
           else r)⟩ today2 =
      fetchRowFn
        ⟨db.users,
         db.schedule.map (fun r =>
           if matchKeyb uid mn today.year r then
             { r with amount := 0, payment_status := "paid" }
           else r)⟩ today2 from funext (fun u => rfl)]

/-- C10, witness: the frame theorem applied at a concrete two-row state
queried on a later date. -/
theorem markUserInactive_frame_witness :
    fetchUnpaidUsers (markUserInactive 1 "October" ⟨2025, 10, 12⟩
        dbFrame).1 ⟨2025, 12, 1⟩ 5 =
      fetchUnpaidUsers ⟨dbFrame.users,
        (markUserInactive 1 "October" ⟨2025, 10, 12⟩ dbFrame).1.schedule⟩
        ⟨2025, 12, 1⟩ 5 :=
  (markUserInactive_frame dbFrame 1 "October" ⟨2025, 10, 12⟩
    ⟨2025, 12, 1⟩ 5).2.2
